import Mathlib

/-!
Verification of the semantic-workbench assistant framework specification
against the repository source.

Part 1 embeds the Azure content-safety evaluator
(`assistants/prospector-assistant/assistant/responsible_ai/azure_evaluator.py`)
as executable Lean definitions.  Python strings are modelled as `List Char`
(one element per code point, so `len` and slicing match Python exactly), the
Azure backend call as an oracle `List Char → Except String AnalyzeTextResponse`
(`Except.error` models a raised exception, carrying `str(e)`).

Part 2 models the framework components (error translator, event router,
config provider, state export provider) whose implementation is exercised by
`tests/test_assistant_app.py` but whose source is not part of this snapshot;
those definitions are modelled from the spec, as marked in their doc comments.

Specification-side definitions (first-fail / last-warn aggregation and so on)
are written from the spec's words and are compared with the embedded source
functions by the theorems.
-/

namespace SemanticWorkbench

/-- ASCII apostrophe, used in the evaluator's note strings. -/
def squote : String := String.mk [Char.ofNat 39]

/-- `ContentSafetyEvaluationResult` (semantic_workbench_assistant.assistant_app):
Pass / Warn / Fail. -/
inductive ContentSafetyEvaluationResult where
  | Pass
  | Warn
  | Fail
deriving DecidableEq, Repr

/-- One entry of `response.categories_analysis` from the Azure content safety
service: a category name and an optional severity. -/
structure CategoryAnalysis where
  category : String
  severity : Option Int
deriving DecidableEq, Repr

/-- The Azure `analyze_text` response, restricted to the field the evaluator
reads. -/
structure AnalyzeTextResponse where
  categories_analysis : List CategoryAnalysis
deriving DecidableEq, Repr

/-- Metadata dict attached to a single batch evaluation: `response.as_dict()`
plus a `content_length` key on the success path; the backend-error path leaves
the default (empty) metadata, so both keys are absent there. -/
structure BatchMetadata where
  response : Option AnalyzeTextResponse := none
  content_length : Option Nat := none
deriving DecidableEq, Repr

/-- Metadata dict of the overall `evaluate` call. -/
structure EvaluationMetadata where
  content_length : Nat
  max_request_length : Nat
  batches : List BatchMetadata
deriving DecidableEq, Repr

/-- `ContentSafetyEvaluation`: result, optional note and a metadata dict.  The
Python class holds a dynamic dict; here the metadata type is a parameter since
batch-level and evaluate-level dicts have different shapes. -/
structure ContentSafetyEvaluation (μ : Type) where
  result : ContentSafetyEvaluationResult
  note : Option String := none
  metadata : μ
deriving DecidableEq, Repr

/-- `AzureContentSafetyEvaluatorConfigModel` (defaults 2 / 4 / 10000).  The
Python model constrains the severities to `Literal[0, 2, 4, 6]`; the claims
quantify over the configured values, so plain integers are used here. -/
structure AzureContentSafetyEvaluatorConfigModel where
  warn_at_severity : Int := 2
  fail_at_severity : Int := 4
  max_request_length : Nat := 10000
deriving DecidableEq, Repr

/-- The Azure backend: maps the text sent to `analyze_text` to either a raised
exception (`Except.error`, carrying `str(e)`) or a response. -/
def Oracle : Type := List Char → Except String AnalyzeTextResponse

/-- Note produced when a category meets the fail threshold:
`f"Content safety category '{category}' failed."`. -/
def failNote (category : String) : String :=
  "Content safety category " ++ squote ++ category ++ squote ++ " failed."

/-- Note produced when a category meets the warn threshold:
`f"Content safety category '{category}' warned."`. -/
def warnNote (category : String) : String :=
  "Content safety category " ++ squote ++ category ++ squote ++ " warned."

/-- The `for text_categories_analysis in response.categories_analysis` loop of
`_evaluate_batch` (lines 234-249): categories without a severity are skipped;
a severity at or above `fail_at_severity` fails the chunk immediately
(`break`); a severity at or above `warn_at_severity` overwrites the running
result with Warn and the category's note. -/
def scanCategories (config : AzureContentSafetyEvaluatorConfigModel) :
    List CategoryAnalysis → ContentSafetyEvaluationResult × Option String →
    ContentSafetyEvaluationResult × Option String
  | [], acc => acc
  | ca :: rest, acc =>
    match ca.severity with
    | none => scanCategories config rest acc
    | some severity =>
      if config.fail_at_severity ≤ severity then
        (ContentSafetyEvaluationResult.Fail, some (failNote ca.category))
      else if config.warn_at_severity ≤ severity then
        scanCategories config rest (ContentSafetyEvaluationResult.Warn, some (warnNote ca.category))
      else
        scanCategories config rest acc

/-- `AzureContentSafetyEvaluator._evaluate_batch` (lines 206-252): a raised
backend exception is caught and turned into a Fail result whose note carries
the failure detail; otherwise the response's categories are scanned against
the thresholds, starting from Pass with the response dict (plus
`content_length`) as metadata. -/
def evaluate_batch (oracle : Oracle) (config : AzureContentSafetyEvaluatorConfigModel)
    (text : List Char) : ContentSafetyEvaluation BatchMetadata :=
  match oracle text with
  | Except.error e =>
    { result := ContentSafetyEvaluationResult.Fail
      note := some ("Azure Content Safety service error: " ++ e)
      metadata := {} }
  | Except.ok response =>
    let scanned := scanCategories config response.categories_analysis
      (ContentSafetyEvaluationResult.Pass, none)
    { result := scanned.1
      note := scanned.2
      metadata := { response := some response, content_length := some text.length } }

/-- The batching slice `[text[i : i + max] for i in range(0, len(text), max)]`
(lines 161-164).  The `0, _ :: _` case is unreachable for the configurations
the claims cover (`range` with step 0 raises `ValueError` in Python). -/
def sliceChunks : Nat → List Char → List (List Char)
  | _, [] => []
  | 0, _ :: _ => []
  | k + 1, c :: rest => (c :: rest).take (k + 1) :: sliceChunks (k + 1) (rest.drop k)
termination_by _ l => l.length
decreasing_by
  simp only [List.length_drop, List.length_cons]
  omega

/-- Lines 160-166 of `evaluate`: content longer than `max_request_length` is
split into slices of that size, otherwise it is sent as a single item. -/
def batchItems (config : AzureContentSafetyEvaluatorConfigModel) (text : List Char) :
    List (List Char) :=
  if text.length > config.max_request_length then
    sliceChunks config.max_request_length text
  else
    [text]

/-- The result-combination loop of `evaluate` (lines 184-197): each batch's
metadata is appended, a failing batch fixes the overall result and note and
`break`s, a warning batch overwrites the running result and note. -/
def combineLoop (acc : ContentSafetyEvaluationResult × Option String) :
    List (ContentSafetyEvaluation BatchMetadata) →
    ContentSafetyEvaluationResult × Option String × List BatchMetadata
  | [] => (acc.1, acc.2, [])
  | e :: rest =>
    if e.result = ContentSafetyEvaluationResult.Fail then
      (ContentSafetyEvaluationResult.Fail, e.note, [e.metadata])
    else if e.result = ContentSafetyEvaluationResult.Warn then
      let tail := combineLoop (ContentSafetyEvaluationResult.Warn, e.note) rest
      (tail.1, tail.2.1, e.metadata :: tail.2.2)
    else
      let tail := combineLoop acc rest
      (tail.1, tail.2.1, e.metadata :: tail.2.2)

/-- `"\n".join` of a Python list of strings. -/
def joinNL : List (List Char) → List Char
  | [] => []
  | [s] => s
  | s :: rest => s ++ Char.ofNat 10 :: joinNL rest

/-- `evaluate`'s argument: `str | list[str]`. -/
def Content : Type := List Char ⊕ List (List Char)

/-- Line 157: `text = content if isinstance(content, str) else "\n".join(content)`. -/
def contentText : Content → List Char
  | Sum.inl s => s
  | Sum.inr l => joinNL l

/-- The per-batch results gathered on line 179 (`asyncio.gather` preserves the
order of `items`). -/
def batchResults (oracle : Oracle) (config : AzureContentSafetyEvaluatorConfigModel)
    (content : Content) : List (ContentSafetyEvaluation BatchMetadata) :=
  (batchItems config (contentText content)).map (evaluate_batch oracle config)

/-- `AzureContentSafetyEvaluator.evaluate` (lines 151-204). -/
def evaluate (oracle : Oracle) (config : AzureContentSafetyEvaluatorConfigModel)
    (content : Content) : ContentSafetyEvaluation EvaluationMetadata :=
  let text := contentText content
  let combined := combineLoop (ContentSafetyEvaluationResult.Pass, none)
    (batchResults oracle config content)
  { result := combined.1
    note := combined.2.1
    metadata :=
      { content_length := text.length
        max_request_length := config.max_request_length
        batches := combined.2.2 } }

/-! ## Specification-side definitions for the evaluator

These follow the spec's words (first-fail wins, last-warn wins, thresholds)
and are compared with the embedded source functions by the claim theorems. -/

/-- Whether a batch evaluation is a Fail. -/
def isFailEval (e : ContentSafetyEvaluation BatchMetadata) : Bool :=
  match e.result with
  | ContentSafetyEvaluationResult.Fail => true
  | _ => false

/-- Whether a batch evaluation is a Warn. -/
def isWarnEval (e : ContentSafetyEvaluation BatchMetadata) : Bool :=
  match e.result with
  | ContentSafetyEvaluationResult.Warn => true
  | _ => false

/-- Spec aggregation rule over per-chunk results, with an explicit starting
accumulator: the first (in original order) failing chunk determines a Fail
result and note; absent any Fail, the last (in original order) warning chunk
determines a Warn result and note; absent either, the accumulator stands. -/
def combineSpec (acc : ContentSafetyEvaluationResult × Option String)
    (rs : List (ContentSafetyEvaluation BatchMetadata)) :
    ContentSafetyEvaluationResult × Option String :=
  match rs.find? isFailEval with
  | some e => (ContentSafetyEvaluationResult.Fail, e.note)
  | none =>
    match (rs.filter isWarnEval).getLast? with
    | some e => (ContentSafetyEvaluationResult.Warn, e.note)
    | none => acc

/-- Spec aggregation rule: first Fail wins (with its note); else last Warn
wins (with its note); else Pass with no note. -/
def aggregatedResultSpec (rs : List (ContentSafetyEvaluation BatchMetadata)) :
    ContentSafetyEvaluationResult × Option String :=
  combineSpec (ContentSafetyEvaluationResult.Pass, none) rs

/-- The batch metadata recorded by the aggregation loop: everything up to and
including the first failing chunk (aggregation short-circuits there), or all
batches when no chunk fails. -/
def recordedBatchesSpec : List (ContentSafetyEvaluation BatchMetadata) → List BatchMetadata
  | [] => []
  | e :: rest =>
    if e.result = ContentSafetyEvaluationResult.Fail then [e.metadata]
    else e.metadata :: recordedBatchesSpec rest

/-- Whether a category has a severity meeting the fail threshold (categories
without a severity never qualify, matching the `continue`). -/
def failQualifies (config : AzureContentSafetyEvaluatorConfigModel)
    (ca : CategoryAnalysis) : Bool :=
  match ca.severity with
  | none => false
  | some severity => decide (config.fail_at_severity ≤ severity)

/-- Whether a category has a severity meeting the warn threshold. -/
def warnQualifies (config : AzureContentSafetyEvaluatorConfigModel)
    (ca : CategoryAnalysis) : Bool :=
  match ca.severity with
  | none => false
  | some severity => decide (config.warn_at_severity ≤ severity)

/-- Spec rule for a single chunk with an explicit starting accumulator: the
first category (in iteration order) meeting the fail threshold fails the chunk
with its note; absent that, the last category meeting the warn threshold warns
the chunk with its note; absent either, the accumulator stands. -/
def chunkSpec (config : AzureContentSafetyEvaluatorConfigModel)
    (acc : ContentSafetyEvaluationResult × Option String) (cats : List CategoryAnalysis) :
    ContentSafetyEvaluationResult × Option String :=
  match cats.find? (failQualifies config) with
  | some ca => (ContentSafetyEvaluationResult.Fail, some (failNote ca.category))
  | none =>
    match (cats.filter (warnQualifies config)).getLast? with
    | some ca => (ContentSafetyEvaluationResult.Warn, some (warnNote ca.category))
    | none => acc

/-- Spec rule for a single chunk: first fail-qualifying category wins; else
last warn-qualifying category wins; else Pass with no note. -/
def chunkResultSpec (config : AzureContentSafetyEvaluatorConfigModel)
    (cats : List CategoryAnalysis) : ContentSafetyEvaluationResult × Option String :=
  chunkSpec config (ContentSafetyEvaluationResult.Pass, none) cats

/-- Sum of the `content_length` values recorded in a batch metadata list
(a batch without the key contributes nothing). -/
def sumContentLengths (batches : List BatchMetadata) : Nat :=
  (batches.map (fun b => b.content_length.getD 0)).sum

/-! ## Error taxonomy and translator

Modelled from the spec: the implementation of `translate_assistant_errors`
(semantic_workbench_assistant.assistant_app.service) is not part of this
snapshot; only its test is.  Spec 4.5: the translator wraps both synchronous
and asynchronous call surfaces, maps BadRequest to 400, NotFound to 404,
Conflict to 409, and lets any other error propagate unchanged. -/

/-- Modelled from the spec: the canonical assistant error kinds plus an
arbitrary non-canonical exception identified by its type name. -/
inductive AssistantError where
  | badRequest (message : String)
  | notFound (message : String)
  | conflict (message : String)
  | unexpected (typeName : String)
deriving DecidableEq, Repr

/-- Modelled from the spec: what escapes a call wrapped by the translator:
either an HTTP exception with a status code, or the original error unchanged. -/
inductive RaisedOutcome where
  | httpException (status_code : Nat)
  | untranslated (e : AssistantError)
deriving DecidableEq, Repr

/-- Modelled from the spec: the mapping applied by the translator to a raised
error: canonical kinds become fixed status codes, anything else propagates
unchanged. -/
def translateError : AssistantError → RaisedOutcome
  | AssistantError.badRequest _ => RaisedOutcome.httpException 400
  | AssistantError.notFound _ => RaisedOutcome.httpException 404
  | AssistantError.conflict _ => RaisedOutcome.httpException 409
  | AssistantError.unexpected typeName =>
    RaisedOutcome.untranslated (AssistantError.unexpected typeName)

/-- Modelled from the spec: the synchronous call path of
`translate_assistant_errors`: the wrapped callable either returns a value or
raises an `AssistantError`. -/
def translate_assistant_errors_sync {α : Type}
    (f : Unit → Except AssistantError α) : Unit → Except RaisedOutcome α :=
  fun u =>
    match f u with
    | Except.ok a => Except.ok a
    | Except.error e => Except.error (translateError e)

/-- Modelled from the spec: an awaitable (coroutine) whose awaiting either
yields a value or raises. -/
structure Awaitable (ε α : Type) where
  await : Unit → Except ε α

/-- Modelled from the spec: the asynchronous call path of
`translate_assistant_errors`: the wrapper awaits the inner coroutine and
translates whatever it raises. -/
def translate_assistant_errors_async {α : Type}
    (f : Unit → Awaitable AssistantError α) : Unit → Awaitable RaisedOutcome α :=
  fun u =>
    { await := fun v =>
        match (f u).await v with
        | Except.ok a => Except.ok a
        | Except.error e => Except.error (translateError e) }

/-! ## Event router

Modelled from the spec: the event dispatch of `AssistantApp.events` is not
part of this snapshot; only its test is.  Spec 4.1: `dispatch` invokes, in
order, (1) the handlers registered for the event's top-level (coarse) tag,
then (2) the handlers registered for the event's full specific tag. -/

/-- Modelled from the spec: registered handlers, keyed by coarse tag (for
example "message created") and by full specific tag (coarse tag plus sub-tag,
for example "chat message created"); each key holds handler identifiers in
registration order. -/
structure EventRouter where
  coarseHandlers : String → List String
  specificHandlers : String → String → List String

/-- Modelled from the spec: dispatching one event with the given coarse tag
and sub-tag produces the handler invocations in order: coarse-tag handlers
first, then full-specific-tag handlers. -/
def dispatch (router : EventRouter) (coarseTag subTag : String) : List String :=
  router.coarseHandlers coarseTag ++ router.specificHandlers coarseTag subTag

/-! ## Config provider

Modelled from the spec: the secret-aware config provider
(`BaseModelAssistantConfigWithSecrets`) is not part of this snapshot; only its
test is.  Spec 4.2 and the data model: secret fields are replaced by a fixed
masking token on every external read, the schema is derived purely from the
declared shape, and a secret field submitted as the masking token is
translated back to the previously stored plaintext.  Secret fields are
modelled positionally (the declared shape fixes the field list). -/

/-- The fixed-length masking token (ten asterisks, as asserted by the test). -/
def maskToken : String := "**********"

/-- Modelled from the spec: the stored config: public field values and secret
field plaintexts, in declared field order. -/
structure ConfigStore where
  publicValues : List String
  secretPlain : List String
deriving DecidableEq, Repr

/-- Modelled from the spec: an externally serialized config response. -/
structure ConfigResponse where
  publicValues : List String
  secretValues : List String
  json_schema : String
  ui_schema : String
deriving DecidableEq, Repr

/-- Modelled from the spec: the JSON schema is derived purely from the
declared shape of the config models, never from stored values. -/
def json_schema_of_shape : String := "combined-config-model-schema"

/-- Modelled from the spec: the UI schema likewise depends only on the
declared shape (secret fields render as password widgets). -/
def ui_schema_of_shape : String := "password-widgets-for-secret-fields"

/-- Modelled from the spec: redaction replaces every secret field value with
the masking token. -/
def redactSecrets (secrets : List String) : List String :=
  secrets.map (fun _ => maskToken)

/-- Modelled from the spec: the external `get`: public values as stored,
secret values redacted, schemas from the declared shape. -/
def getConfig (store : ConfigStore) : ConfigResponse :=
  { publicValues := store.publicValues
    secretValues := redactSecrets store.secretPlain
    json_schema := json_schema_of_shape
    ui_schema := ui_schema_of_shape }

/-- Modelled from the spec: one secret field on `set`: a submission equal to
the masking token means "unchanged" and is translated back to the previously
stored plaintext; anything else is stored as submitted. -/
def resolveSecretField (previous submitted : String) : String :=
  if submitted = maskToken then previous else submitted

/-- Modelled from the spec: the external `set`: stores the new public values
and the resolved secret values, and answers with the (redacted) external view
of the new store. -/
def setConfig (store : ConfigStore) (newPublic submittedSecrets : List String) :
    ConfigStore × ConfigResponse :=
  let newStore : ConfigStore :=
    { publicValues := newPublic
      secretPlain := List.zipWith resolveSecretField store.secretPlain submittedSecrets }
  (newStore, getConfig newStore)

/-! ## Config validation

Modelled from the spec: `putConfig` validation is not part of this snapshot;
only its test is.  Spec 4.2: `set` validates the submitted trees against
their declared shapes; on any field failing validation the whole call is
rejected with a validation error (externally status 400) and the stored value
is retained unchanged. -/

/-- Modelled from the spec: a structured config value tree. -/
inductive ConfigValue where
  | str (s : String)
  | num (n : Int)
  | obj (fields : List (String × ConfigValue))
deriving Repr

/-- Modelled from the spec: the declared shape a config value tree must
validate against. -/
inductive ConfigShape where
  | strField
  | numField
  | objShape (fields : List (String × ConfigShape))
deriving Repr

mutual

/-- Modelled from the spec: validation of a value against a declared shape. -/
def validates : ConfigShape → ConfigValue → Bool
  | ConfigShape.strField, ConfigValue.str _ => true
  | ConfigShape.strField, _ => false
  | ConfigShape.numField, ConfigValue.num _ => true
  | ConfigShape.numField, _ => false
  | ConfigShape.objShape fields, ConfigValue.obj vals => validatesFields fields vals
  | ConfigShape.objShape _, _ => false

/-- Modelled from the spec: field-by-field validation of an object value
against the declared field list (same names in order, each value valid). -/
def validatesFields : List (String × ConfigShape) → List (String × ConfigValue) → Bool
  | [], [] => true
  | (n, shape) :: fs, (m, v) :: vs =>
    decide (n = m) && validates shape v && validatesFields fs vs
  | _, _ => false

end

/-- Modelled from the spec: `putConfig`: on successful validation the
submitted value is committed and status 200 is answered; on validation
failure the stored value is retained and status 400 is answered. -/
def putConfig (declared : ConfigShape) (stored submitted : ConfigValue) :
    ConfigValue × Nat :=
  if validates declared submitted then (submitted, 200) else (stored, 400)

/-! ## State export provider

Modelled from the spec: `FileStorageConversationDataExporter` is not part of
this snapshot; only its test is.  Spec 4.3 and design note: the durable state
of a conversation is a nested ownership tree of named entries; `export`
produces a stream listing every file with its path; `import_` first clears
any existing destination state and then reconstructs the entries from the
stream. -/

/-- Modelled from the spec: a durable-state entry: a file with byte content,
or a directory with named child entries. -/
inductive FSTree where
  | file (content : List Nat)
  | dir (entries : List (String × FSTree))
deriving Repr

/-- Modelled from the spec: well-formedness of a directory listing as a
filesystem produces it: sibling names are distinct and directories are
non-empty (an export stream records files only, so empty directories do not
occur in exportable state). -/
def wfEntries : List (String × FSTree) → Bool
  | [] => true
  | (n, FSTree.file _) :: rest => !decide (n ∈ rest.map Prod.fst) && wfEntries rest
  | (n, FSTree.dir es) :: rest =>
    !es.isEmpty && wfEntries es && !decide (n ∈ rest.map Prod.fst) && wfEntries rest

/-- Modelled from the spec: the export stream of a directory listing: every
file, with its relative path, in tree order. -/
def flattenEntries : List (String × FSTree) → List (List String × List Nat)
  | [] => []
  | (n, FSTree.file c) :: rest => ([n], c) :: flattenEntries rest
  | (n, FSTree.dir es) :: rest =>
    (flattenEntries es).map (fun q => (n :: q.1, q.2)) ++ flattenEntries rest

/-- Modelled from the spec: the subtree created for the remaining path of a
fresh entry. -/
def buildTree : List String → List Nat → FSTree
  | [], c => FSTree.file c
  | x :: p, c => FSTree.dir [(x, buildTree p c)]

/-- Modelled from the spec: writing one streamed file into a directory
listing, creating intermediate directories as needed and descending into
existing ones. -/
def insertEntry : List (String × FSTree) → List String → List Nat → List (String × FSTree)
  | es, [], _ => es
  | [], x :: p, c => [(x, buildTree p c)]
  | (n, t) :: es, [x], c =>
    if n = x then (n, FSTree.file c) :: es
    else (n, t) :: insertEntry es [x] c
  | (n, t) :: es, x :: y :: p, c =>
    if n = x then
      match t with
      | FSTree.dir d => (n, FSTree.dir (insertEntry d (y :: p) c)) :: es
      | FSTree.file _ => (n, FSTree.dir (insertEntry [] (y :: p) c)) :: es
    else
      (n, t) :: insertEntry es (x :: y :: p) c
termination_by es p _ => (p.length, es.length)
decreasing_by
  all_goals simp_wf
  all_goals omega

/-- Modelled from the spec: writing a whole stream into a directory listing,
in stream order. -/
def buildAll (es : List (String × FSTree)) (stream : List (List String × List Nat)) :
    List (String × FSTree) :=
  stream.foldl (fun acc q => insertEntry acc q.1 q.2) es

/-- Modelled from the spec: `export`: stream the source conversation's durable
state. -/
def exportData (source : List (String × FSTree)) : List (List String × List Nat) :=
  flattenEntries source

/-- Modelled from the spec: `import_`: clear any pre-existing destination
state, then reconstruct the entries of the incoming stream (the destination
argument is discarded entirely: stale entries must not survive). -/
def importData (dest : List (String × FSTree)) (stream : List (List String × List Nat)) :
    List (String × FSTree) :=
  buildAll [] stream

/-! ## Lemmas: aggregation across chunks -/

/-- The combination loop of `evaluate` computes the spec's first-fail /
last-warn aggregation, recording batch metadata up to and including the first
failing chunk. -/
theorem combineLoop_eq_spec (rs : List (ContentSafetyEvaluation BatchMetadata)) :
    ∀ acc, combineLoop acc rs =
      ((combineSpec acc rs).1, (combineSpec acc rs).2, recordedBatchesSpec rs) := by
  induction rs with
  | nil => intro acc; simp [combineLoop, combineSpec, recordedBatchesSpec]
  | cons e rest ih =>
    intro acc
    rcases he : e.result with _ | _ | _
    · -- Pass
      simp only [combineLoop, he, reduceCtorEq, if_false, ite_false, ih acc]
      simp only [combineSpec, List.find?_cons, isFailEval, he, List.filter_cons, isWarnEval,
        recordedBatchesSpec, if_false, ite_false, reduceCtorEq]
    · -- Warn
      simp only [combineLoop, he, reduceCtorEq, if_false, ite_false, if_true, ite_true,
        ih (ContentSafetyEvaluationResult.Warn, e.note)]
      simp only [combineSpec, List.find?_cons, isFailEval, he, List.filter_cons, isWarnEval,
        recordedBatchesSpec, if_false, ite_false, if_true, ite_true, reduceCtorEq]
      cases hfind : rest.find? isFailEval with
      | some f => rfl
      | none =>
        cases hlast : (rest.filter isWarnEval).getLast? with
        | some g =>
          have hgl : (e :: rest.filter isWarnEval).getLast? = some g := by
            cases hfl : rest.filter isWarnEval with
            | nil => rw [hfl] at hlast; simp at hlast
            | cons f l' => rw [hfl] at hlast; rw [List.getLast?_cons_cons, hlast]
          rw [hgl]
        | none =>
          have hnil : rest.filter isWarnEval = [] := List.getLast?_eq_none_iff.mp hlast
          rw [hnil]
          simp
    · -- Fail
      simp only [combineLoop, he, if_true, ite_true]
      simp only [combineSpec, List.find?_cons, isFailEval, he, recordedBatchesSpec, if_true,
        ite_true]

/-- `evaluate`, expressed through the spec-side aggregation of its per-batch
results. -/
theorem evaluate_eq_spec (oracle : Oracle) (config : AzureContentSafetyEvaluatorConfigModel)
    (content : Content) :
    evaluate oracle config content =
      { result := (aggregatedResultSpec (batchResults oracle config content)).1
        note := (aggregatedResultSpec (batchResults oracle config content)).2
        metadata :=
          { content_length := (contentText content).length
            max_request_length := config.max_request_length
            batches := recordedBatchesSpec (batchResults oracle config content) } } := by
  rw [evaluate, combineLoop_eq_spec]
  rfl

/-- With no failing chunk, the aggregation loop records every batch's
metadata. -/
theorem recordedBatchesSpec_no_fail (rs : List (ContentSafetyEvaluation BatchMetadata))
    (h : ∀ e ∈ rs, e.result ≠ ContentSafetyEvaluationResult.Fail) :
    recordedBatchesSpec rs = rs.map (fun e => e.metadata) := by
  induction rs with
  | nil => rfl
  | cons e rest ih =>
    rw [recordedBatchesSpec, if_neg (h e (List.mem_cons_self e rest)),
      ih (fun x hx => h x (List.mem_cons_of_mem e hx)), List.map_cons]

/-! ## Lemmas: per-chunk category scan -/

/-- The category loop of `_evaluate_batch` computes the spec's
first-fail-qualifying / last-warn-qualifying rule. -/
theorem scanCategories_eq_spec (config : AzureContentSafetyEvaluatorConfigModel)
    (cats : List CategoryAnalysis) :
    ∀ acc, scanCategories config cats acc = chunkSpec config acc cats := by
  induction cats with
  | nil => intro acc; simp [scanCategories, chunkSpec]
  | cons ca rest ih =>
    intro acc
    cases hsev : ca.severity with
    | none =>
      simp only [scanCategories, hsev, ih acc]
      simp only [chunkSpec, List.find?_cons, failQualifies, hsev, List.filter_cons, warnQualifies,
        Bool.false_eq_true, if_false, ite_false]
    | some severity =>
      by_cases hf : config.fail_at_severity ≤ severity
      · simp only [scanCategories, hsev, hf, if_true, ite_true]
        simp only [chunkSpec, List.find?_cons, failQualifies, hsev, decide_eq_true hf]
      · by_cases hw : config.warn_at_severity ≤ severity
        · simp only [scanCategories, hsev, hf, if_false, ite_false, hw, if_true, ite_true,
            ih (ContentSafetyEvaluationResult.Warn, some (warnNote ca.category))]
          simp only [chunkSpec, List.find?_cons, failQualifies, hsev,
            decide_eq_false hf, List.filter_cons, warnQualifies, decide_eq_true hw,
            Bool.false_eq_true, if_false, ite_false, if_true, ite_true]
          cases hfind : rest.find? (failQualifies config) with
          | some f => rfl
          | none =>
            cases hlast : (rest.filter (warnQualifies config)).getLast? with
            | some g =>
              have hgl : (ca :: rest.filter (warnQualifies config)).getLast? = some g := by
                cases hfl : rest.filter (warnQualifies config) with
                | nil => rw [hfl] at hlast; simp at hlast
                | cons f l' => rw [hfl] at hlast; rw [List.getLast?_cons_cons, hlast]
              rw [hgl]
            | none =>
              have hnil : rest.filter (warnQualifies config) = [] :=
                List.getLast?_eq_none_iff.mp hlast
              rw [hnil]
              simp
        · simp only [scanCategories, hsev, hf, if_false, ite_false, hw, ih acc]
          simp only [chunkSpec, List.find?_cons, failQualifies, hsev, decide_eq_false hf,
            List.filter_cons, warnQualifies, decide_eq_false hw, Bool.false_eq_true, if_false,
            ite_false]

/-! ## Lemmas: chunking -/

/-- Concatenating the slices reproduces the text. -/
theorem sliceChunks_flatten (m : Nat) (l : List Char) :
    0 < m → (sliceChunks m l).flatten = l := by
  induction m, l using sliceChunks.induct with
  | case1 m => intro _; simp [sliceChunks]
  | case2 c rest => omega
  | case3 k c rest ih =>
    intro _
    rw [sliceChunks, List.flatten_cons, ih (by omega)]
    have hdrop : (c :: rest).drop (k + 1) = rest.drop k := rfl
    rw [← hdrop, List.take_append_drop]

/-- Every slice has at most `m` characters. -/
theorem sliceChunks_sizes (m : Nat) (l : List Char) :
    ∀ chunk ∈ sliceChunks m l, chunk.length ≤ m := by
  induction m, l using sliceChunks.induct with
  | case1 m => simp [sliceChunks]
  | case2 c rest => simp [sliceChunks]
  | case3 k c rest ih =>
    intro chunk hchunk
    rw [sliceChunks] at hchunk
    rcases List.mem_cons.mp hchunk with h | h
    · rw [h]
      exact List.length_take_le _ _
    · exact ih chunk h

/-- The number of slices is the length of the text divided by `m`, rounded
up. -/
theorem sliceChunks_length (m : Nat) (l : List Char) :
    0 < m → (sliceChunks m l).length = (l.length + m - 1) / m := by
  induction m, l using sliceChunks.induct with
  | case1 m =>
    intro hm
    rw [sliceChunks]
    simp only [List.length_nil]
    rw [Nat.div_eq_of_lt (by omega)]
  | case2 c rest => omega
  | case3 k c rest ih =>
    intro _
    simp only [Nat.succ_eq_add_one]
    have hih := ih (by omega)
    rw [List.length_drop] at hih
    rw [sliceChunks, List.length_cons, hih, List.length_cons]
    by_cases h : rest.length ≤ k
    · have h1 : rest.length - k + (k + 1) - 1 = k := by omega
      have h2 : rest.length + 1 + (k + 1) - 1 = rest.length + k + 1 := by omega
      rw [h1, h2, Nat.div_eq_of_lt (show k < k + 1 by omega),
        Nat.div_eq_of_lt_le (show 1 * (k + 1) ≤ rest.length + k + 1 by omega)
          (show rest.length + k + 1 < (1 + 1) * (k + 1) by omega)]
    · have h1 : rest.length - k + (k + 1) - 1 = rest.length := by omega
      have h2 : rest.length + 1 + (k + 1) - 1 = rest.length + (k + 1) := by omega
      rw [h1, h2, Nat.add_div_right _ (by omega)]

/-! ## Lemmas: batch metadata and batching shape -/

theorem evaluate_batch_content_length (oracle : Oracle)
    (config : AzureContentSafetyEvaluatorConfigModel) (i : List Char)
    (h : (evaluate_batch oracle config i).result ≠ ContentSafetyEvaluationResult.Fail) :
    (evaluate_batch oracle config i).metadata.content_length = some i.length := by
  cases hb : oracle i with
  | error e =>
    exfalso
    apply h
    unfold evaluate_batch
    rw [hb]
  | ok response =>
    unfold evaluate_batch
    rw [hb]

theorem batchItems_ne_nil (config : AzureContentSafetyEvaluatorConfigModel) (text : List Char)
    (hm : 0 < config.max_request_length) : batchItems config text ≠ [] := by
  rw [batchItems]
  by_cases hgt : text.length > config.max_request_length
  · rw [if_pos hgt]
    cases text with
    | nil => simp at hgt
    | cons c rest =>
      cases hM : config.max_request_length with
      | zero => omega
      | succ k =>
        rw [sliceChunks]
        exact List.cons_ne_nil _ _
  · rw [if_neg hgt]
    simp

theorem joinNL_length (l : List (List Char)) :
    (joinNL l).length = (l.map List.length).sum + (l.length - 1) := by
  induction l using joinNL.induct with
  | case1 => simp [joinNL]
  | case2 s => simp [joinNL]
  | case3 s rest h ih =>
    cases rest with
    | nil => simp at h
    | cons y t =>
      simp only [joinNL, List.length_append, List.length_cons, ih, List.map_cons,
        List.sum_cons, List.length_cons]
      omega

/-- Claim C1: for every sequence of per-chunk evaluation results, `evaluate`
aggregates to Fail with the note of the first (in original chunk order)
failing chunk, short-circuiting the aggregation there (later batches are not
recorded); absent any Fail, to Warn with the note of the last (in original
order) warning chunk; absent either, to Pass with no note. -/
theorem evaluate_first_fail_last_warn (oracle : Oracle)
    (config : AzureContentSafetyEvaluatorConfigModel) (content : Content) :
    (evaluate oracle config content).result =
        (aggregatedResultSpec (batchResults oracle config content)).1
    ∧ (evaluate oracle config content).note =
        (aggregatedResultSpec (batchResults oracle config content)).2
    ∧ (evaluate oracle config content).metadata.batches =
        recordedBatchesSpec (batchResults oracle config content) := by
  refine ⟨?_, ?_, ?_⟩ <;> rw [evaluate_eq_spec]

/-- Claim C3: for a chunk whose backend call returns a response, the chunk
result is Fail with a note naming the first category (in iteration order)
whose severity meets the fail threshold; otherwise Warn with a note naming
the last category whose severity meets the warn threshold (later warns
overwrite earlier ones); otherwise Pass with no note.  Categories without a
severity are skipped. -/
theorem evaluate_batch_first_fail_last_warn_category (oracle : Oracle)
    (config : AzureContentSafetyEvaluatorConfigModel) (text : List Char)
    (response : AnalyzeTextResponse) (h : oracle text = Except.ok response) :
    evaluate_batch oracle config text =
      { result := (chunkResultSpec config response.categories_analysis).1
        note := (chunkResultSpec config response.categories_analysis).2
        metadata := { response := some response, content_length := some text.length } } := by
  unfold evaluate_batch
  rw [h]
  simp only [scanCategories_eq_spec]
  rfl

/-- Claim C3 witness: a response with one category at severity 6 against the
default thresholds fails the chunk with that category's note. -/
theorem evaluate_batch_first_fail_last_warn_category_witness :
    evaluate_batch
        (fun _ => Except.ok { categories_analysis := [{ category := "Hate", severity := some 6 }] })
        {} (['h', 'i'] : List Char) =
      { result := ContentSafetyEvaluationResult.Fail
        note := some (failNote "Hate")
        metadata :=
          { response := some { categories_analysis := [{ category := "Hate", severity := some 6 }] }
            content_length := some 2 } } := by
  rw [evaluate_batch_first_fail_last_warn_category
    (fun _ => Except.ok { categories_analysis := [{ category := "Hate", severity := some 6 }] })
    {} (['h', 'i'] : List Char)
    { categories_analysis := [{ category := "Hate", severity := some 6 }] } rfl]
  rfl

/-- Claim C4: a chunk whose backend call raises evaluates to Fail with a note
carrying the failure detail, and the exception is absorbed into the result
model: even when every chunk's backend call raises, `evaluate` returns an
ordinary evaluation (Fail, with the error note) rather than raising. -/
theorem backend_error_absorbed (oracle : Oracle)
    (config : AzureContentSafetyEvaluatorConfigModel) (text : List Char) (e : String)
    (h : oracle text = Except.error e) :
    evaluate_batch oracle config text =
      { result := ContentSafetyEvaluationResult.Fail
        note := some ("Azure Content Safety service error: " ++ e)
        metadata := {} }
    ∧ ∀ content : Content, 0 < config.max_request_length →
        (∀ t, oracle t = Except.error e) →
        (evaluate oracle config content).result = ContentSafetyEvaluationResult.Fail
        ∧ (evaluate oracle config content).note =
            some ("Azure Content Safety service error: " ++ e) := by
  constructor
  · unfold evaluate_batch
    rw [h]
  · intro content hm hall
    have hne := batchItems_ne_nil config (contentText content) hm
    obtain ⟨i, items', hitems⟩ : ∃ i items',
        batchItems config (contentText content) = i :: items' := by
      cases hb : batchItems config (contentText content) with
      | nil => exact absurd hb hne
      | cons i items' => exact ⟨i, items', rfl⟩
    have hfirst : evaluate_batch oracle config i =
        { result := ContentSafetyEvaluationResult.Fail
          note := some ("Azure Content Safety service error: " ++ e)
          metadata := {} } := by
      unfold evaluate_batch
      rw [hall i]
    have hagg : aggregatedResultSpec (batchResults oracle config content) =
        (ContentSafetyEvaluationResult.Fail,
          some ("Azure Content Safety service error: " ++ e)) := by
      rw [batchResults, hitems, List.map_cons, aggregatedResultSpec, combineSpec,
        List.find?_cons, hfirst]
      rfl
    constructor <;> rw [evaluate_eq_spec] <;> simp [hagg]

/-- Claim C4 witness: a backend raising "boom" yields a Fail chunk and a Fail
overall evaluation carrying the error note. -/
theorem backend_error_absorbed_witness :
    evaluate_batch (fun _ => Except.error "boom") {} (['h', 'i'] : List Char) =
      { result := ContentSafetyEvaluationResult.Fail
        note := some ("Azure Content Safety service error: " ++ "boom")
        metadata := {} }
    ∧ (evaluate (fun _ => Except.error "boom") {} (Sum.inl ['h', 'i'])).result =
        ContentSafetyEvaluationResult.Fail
    ∧ (evaluate (fun _ => Except.error "boom") {} (Sum.inl ['h', 'i'])).note =
        some ("Azure Content Safety service error: " ++ "boom") := by
  have h := backend_error_absorbed (fun _ => Except.error "boom") {} ['h', 'i'] "boom" rfl
  exact ⟨h.1, h.2 (Sum.inl ['h', 'i']) (by decide) (fun t => rfl)⟩

/-- Claim C10: evaluating a list of strings equals evaluating the single
string obtained by joining the elements with a newline separator, and the
reported content length is the length of the joined string: the sum of the
element lengths plus one newline per element boundary. -/
theorem evaluate_list_joined_with_newline (oracle : Oracle)
    (config : AzureContentSafetyEvaluatorConfigModel) (l : List (List Char)) :
    evaluate oracle config (Sum.inr l) = evaluate oracle config (Sum.inl (joinNL l))
    ∧ (evaluate oracle config (Sum.inr l)).metadata.content_length = (joinNL l).length
    ∧ (joinNL l).length = (l.map List.length).sum + (l.length - 1) := by
  exact ⟨rfl, rfl, joinNL_length l⟩

/-- Claim C2 (amended): for content of length L and maximum unit length
M > 0, `evaluate` splits the content into exactly ceil(L/M) contiguous chunks
(one chunk when L = 0), each of length at most M, whose concatenation equals
the content; and, provided no chunk's evaluation result is Fail, the sum of
the per-batch `content_length` values recorded in the returned metadata
equals L.  (When a chunk fails, aggregation short-circuits: batches after the
first failing chunk are not recorded, and a backend-error batch records no
`content_length`, so the unconditional sum claim fails; see the
counterexample.) -/
theorem evaluate_chunking_and_length_accounting (oracle : Oracle)
    (config : AzureContentSafetyEvaluatorConfigModel) (text : List Char)
    (hm : 0 < config.max_request_length) :
    (batchItems config text).length =
        (if text.length = 0 then 1
         else (text.length + config.max_request_length - 1) / config.max_request_length)
    ∧ (∀ chunk ∈ batchItems config text, chunk.length ≤ config.max_request_length)
    ∧ (batchItems config text).flatten = text
    ∧ ((∀ e ∈ batchResults oracle config (Sum.inl text),
          e.result ≠ ContentSafetyEvaluationResult.Fail) →
        sumContentLengths (evaluate oracle config (Sum.inl text)).metadata.batches =
          text.length) := by
  have hflat : (batchItems config text).flatten = text := by
    rw [batchItems]
    by_cases hgt : text.length > config.max_request_length
    · rw [if_pos hgt]
      exact sliceChunks_flatten _ _ hm
    · rw [if_neg hgt]
      simp
  refine ⟨?_, ?_, hflat, ?_⟩
  · rw [batchItems]
    by_cases hgt : text.length > config.max_request_length
    · rw [if_pos hgt, sliceChunks_length _ _ hm, if_neg (by omega)]
    · rw [if_neg hgt]
      simp only [List.length_singleton]
      by_cases hz : text.length = 0
      · rw [if_pos hz]
      · rw [if_neg hz]
        symm
        apply Nat.div_eq_of_lt_le <;> omega
  · rw [batchItems]
    by_cases hgt : text.length > config.max_request_length
    · rw [if_pos hgt]
      exact sliceChunks_sizes _ _
    · rw [if_neg hgt]
      intro chunk hchunk
      rw [List.mem_singleton.mp hchunk]
      omega
  · intro hnf
    have hmb : (evaluate oracle config (Sum.inl text)).metadata.batches =
        (batchResults oracle config (Sum.inl text)).map (fun e => e.metadata) := by
      rw [evaluate_eq_spec]
      exact recordedBatchesSpec_no_fail _ hnf
    rw [hmb, sumContentLengths, List.map_map, batchResults]
    have hct : contentText (Sum.inl text) = text := rfl
    rw [hct, List.map_map]
    have hcongr : (batchItems config text).map
        (((fun b => b.content_length.getD 0) ∘ fun e => e.metadata) ∘
          evaluate_batch oracle config) =
        (batchItems config text).map List.length := by
      apply List.map_congr_left
      intro i hi
      have hne : (evaluate_batch oracle config i).result ≠
          ContentSafetyEvaluationResult.Fail := by
        apply hnf
        rw [batchResults, hct]
        exact List.mem_map_of_mem _ hi
      simp only [Function.comp_apply]
      rw [evaluate_batch_content_length oracle config i hne]
      rfl
    rw [hcongr, ← List.length_flatten, hflat]

/-- Claim C2 witness: two characters against the default configuration give
one chunk of length at most 10000 and a recorded content-length sum of 2. -/
theorem evaluate_chunking_and_length_accounting_witness :
    ((batchItems {} ['h', 'i']).length = 1
      ∧ (∀ chunk ∈ batchItems {} ['h', 'i'], chunk.length ≤ 10000)
      ∧ (batchItems {} ['h', 'i']).flatten = ['h', 'i'])
    ∧ sumContentLengths
        (evaluate (fun _ => Except.ok { categories_analysis := [] }) {}
          (Sum.inl ['h', 'i'])).metadata.batches = 2 := by
  have h := evaluate_chunking_and_length_accounting
    (fun _ => Except.ok { categories_analysis := [] }) {} ['h', 'i'] (by decide)
  refine ⟨⟨?_, h.2.1, h.2.2.1⟩, ?_⟩
  · rw [h.1]
    decide
  · exact h.2.2.2 (by decide)

/-- Claim C2 counterexample: with max length 1, content "ab" and a backend that
reports severity 6 on every chunk, the first chunk fails, aggregation breaks,
and only that chunk's content length (1) is recorded: the sum is not 2. -/
theorem sum_content_length_counterexample :
    sumContentLengths
        (evaluate
          (fun _ => Except.ok { categories_analysis := [{ category := "Hate", severity := some 6 }] })
          { warn_at_severity := 2, fail_at_severity := 4, max_request_length := 1 }
          (Sum.inl ['a', 'b'])).metadata.batches ≠ (['a', 'b'] : List Char).length := by
  have : sumContentLengths
      (evaluate
        (fun _ => Except.ok { categories_analysis := [{ category := "Hate", severity := some 6 }] })
        { warn_at_severity := 2, fail_at_severity := 4, max_request_length := 1 }
        (Sum.inl ['a', 'b'])).metadata.batches = 1 := by
    simp [evaluate, batchResults, contentText, batchItems, sliceChunks, evaluate_batch,
      scanCategories, combineLoop, sumContentLengths]
  rw [this]
  decide

/-! ## Error translator theorems -/

/-- Claim C5: on both the synchronous and the asynchronous call path, BadRequest
maps to status 400, NotFound to 404, Conflict to 409, and an error outside
the canonical kinds propagates unchanged, reaching no status code. -/
theorem translate_assistant_errors_canonical (m typeName : String) :
    (translate_assistant_errors_sync
        (fun _ => (Except.error (AssistantError.badRequest m) : Except AssistantError Unit)) () =
      Except.error (RaisedOutcome.httpException 400))
    ∧ (translate_assistant_errors_sync
        (fun _ => (Except.error (AssistantError.notFound m) : Except AssistantError Unit)) () =
      Except.error (RaisedOutcome.httpException 404))
    ∧ (translate_assistant_errors_sync
        (fun _ => (Except.error (AssistantError.conflict m) : Except AssistantError Unit)) () =
      Except.error (RaisedOutcome.httpException 409))
    ∧ (translate_assistant_errors_sync
        (fun _ => (Except.error (AssistantError.unexpected typeName) : Except AssistantError Unit)) () =
      Except.error (RaisedOutcome.untranslated (AssistantError.unexpected typeName)))
    ∧ ((translate_assistant_errors_async
        (fun _ => ({ await := fun _ => Except.error (AssistantError.badRequest m) } :
          Awaitable AssistantError Unit)) ()).await () =
      Except.error (RaisedOutcome.httpException 400))
    ∧ ((translate_assistant_errors_async
        (fun _ => ({ await := fun _ => Except.error (AssistantError.notFound m) } :
          Awaitable AssistantError Unit)) ()).await () =
      Except.error (RaisedOutcome.httpException 404))
    ∧ ((translate_assistant_errors_async
        (fun _ => ({ await := fun _ => Except.error (AssistantError.conflict m) } :
          Awaitable AssistantError Unit)) ()).await () =
      Except.error (RaisedOutcome.httpException 409))
    ∧ ((translate_assistant_errors_async
        (fun _ => ({ await := fun _ => Except.error (AssistantError.unexpected typeName) } :
          Awaitable AssistantError Unit)) ()).await () =
      Except.error (RaisedOutcome.untranslated (AssistantError.unexpected typeName)))
    ∧ (∀ status : Nat,
        translateError (AssistantError.unexpected typeName) ≠ RaisedOutcome.httpException status) := by
  refine ⟨rfl, rfl, rfl, rfl, rfl, rfl, rfl, rfl, ?_⟩
  intro status
  simp [translateError]

/-! ## Event router theorems -/

/-- Claim C6: with a handler registered for the coarse tag and one for a specific
sub-tag, an event of that sub-tag invokes the coarse handler before the
specific one; an event of a different sub-tag under the same coarse tag
invokes the coarse handler but not the specific one. -/
theorem dispatch_coarse_then_specific (router : EventRouter)
    (coarseTag subTag otherSub coarseHandler specificHandler : String)
    (hc : router.coarseHandlers coarseTag = [coarseHandler])
    (hs : router.specificHandlers coarseTag subTag = [specificHandler])
    (ho : router.specificHandlers coarseTag otherSub = [])
    (hne : specificHandler ≠ coarseHandler) :
    dispatch router coarseTag subTag = [coarseHandler, specificHandler]
    ∧ dispatch router coarseTag otherSub = [coarseHandler]
    ∧ specificHandler ∉ dispatch router coarseTag otherSub := by
  refine ⟨?_, ?_, ?_⟩ <;> simp [dispatch, hc, hs, ho, hne]

/-- Claim C6 witness: the registration of the dispatch-ordering test: one handler
on any message created, one on chat message created; a chat event runs both
in coarse-then-specific order, a notice event runs only the coarse handler. -/
theorem dispatch_coarse_then_specific_witness :
    dispatch
        { coarseHandlers := fun t => if t = "message.created" then ["on_message_created"] else []
          specificHandlers := fun t s =>
            if t = "message.created" ∧ s = "chat" then ["on_chat_message"] else [] }
        "message.created" "chat" = ["on_message_created", "on_chat_message"]
    ∧ dispatch
        { coarseHandlers := fun t => if t = "message.created" then ["on_message_created"] else []
          specificHandlers := fun t s =>
            if t = "message.created" ∧ s = "chat" then ["on_chat_message"] else [] }
        "message.created" "notice" = ["on_message_created"]
    ∧ "on_chat_message" ∉ dispatch
        { coarseHandlers := fun t => if t = "message.created" then ["on_message_created"] else []
          specificHandlers := fun t s =>
            if t = "message.created" ∧ s = "chat" then ["on_chat_message"] else [] }
        "message.created" "notice" :=
  dispatch_coarse_then_specific _ "message.created" "chat" "notice"
    "on_message_created" "on_chat_message" (by simp) (by simp) (by simp) (by simp)

/-! ## Config provider theorems -/

/-- Resubmitting the masking token for every field preserves the previously
stored plaintexts. -/
theorem zipWith_resolve_mask (prev : List String) :
    List.zipWith resolveSecretField prev (prev.map (fun _ => maskToken)) = prev := by
  induction prev with
  | nil => rfl
  | cons p rest ih =>
    simp only [List.map_cons, List.zipWith_cons_cons, ih]
    rw [resolveSecretField, if_pos rfl]

/-- Claim C7: after a set, the set response and every subsequent get carry only the
masking token in secret positions (never the plaintext); schema and UI schema
depend only on the declared shape; external responses do not depend on the
stored plaintexts at all; and resubmitting the masking token preserves the
previously stored plaintext. -/
theorem config_secret_redaction (store : ConfigStore) (newPublic submitted : List String)
    (p : String) (hp : p ≠ maskToken) :
    (∀ v ∈ (setConfig store newPublic submitted).2.secretValues, v = maskToken)
    ∧ (∀ v ∈ (getConfig (setConfig store newPublic submitted).1).secretValues, v = maskToken)
    ∧ p ∉ (setConfig store newPublic submitted).2.secretValues
    ∧ p ∉ (getConfig (setConfig store newPublic submitted).1).secretValues
    ∧ (getConfig (setConfig store newPublic submitted).1).json_schema = json_schema_of_shape
    ∧ (getConfig (setConfig store newPublic submitted).1).ui_schema = ui_schema_of_shape
    ∧ (∀ s₁ s₂ pub : List String, s₁.length = s₂.length →
        getConfig { publicValues := pub, secretPlain := s₁ } =
          getConfig { publicValues := pub, secretPlain := s₂ })
    ∧ (setConfig store newPublic (store.secretPlain.map (fun _ => maskToken))).1.secretPlain =
        store.secretPlain := by
  have hmask : ∀ secrets : List String, ∀ v ∈ redactSecrets secrets, v = maskToken := by
    intro secrets v hv
    rw [redactSecrets] at hv
    obtain ⟨_, _, rfl⟩ := List.mem_map.mp hv
    rfl
  refine ⟨hmask _, hmask _, ?_, ?_, rfl, rfl, ?_, zipWith_resolve_mask _⟩
  · intro hcontra
    exact hp (hmask _ p hcontra)
  · intro hcontra
    exact hp (hmask _ p hcontra)
  · intro s₁ s₂ pub hlen
    rw [getConfig, getConfig]
    simp only [redactSecrets, List.map_const']
    rw [hlen]

/-- Claim C7 witness. -/
theorem config_secret_redaction_witness :
    (∀ v ∈ (setConfig { publicValues := ["test_value"], secretPlain := ["old_secret"] }
        ["new_value"] ["hunter2"]).2.secretValues, v = maskToken)
    ∧ "hunter2" ∉ (setConfig { publicValues := ["test_value"], secretPlain := ["old_secret"] }
        ["new_value"] ["hunter2"]).2.secretValues
    ∧ (setConfig { publicValues := ["test_value"], secretPlain := ["old_secret"] }
        ["new_value"] (["old_secret"].map (fun _ => maskToken))).1.secretPlain = ["old_secret"] := by
  have h := config_secret_redaction { publicValues := ["test_value"], secretPlain := ["old_secret"] }
    ["new_value"] ["hunter2"] "hunter2" (by decide)
  exact ⟨h.1, h.2.2.1, h.2.2.2.2.2.2.2⟩

/-! ## Config validation theorems -/

/-- Claim C8: a set whose submitted value fails validation against the declared
shape is rejected with status 400 and leaves the stored value unchanged. -/
theorem putConfig_validation_failure (declared : ConfigShape) (stored submitted : ConfigValue)
    (h : validates declared submitted = false) :
    (putConfig declared stored submitted).2 = 400
    ∧ (putConfig declared stored submitted).1 = stored := by
  rw [putConfig]
  simp [h]

/-- Claim C8 witness: the test's invalid put: the declared shape wants `test_key`
to be a string, the submission makes it an object. -/
theorem putConfig_validation_failure_witness :
    (putConfig (ConfigShape.objShape [("test_key", ConfigShape.strField)])
        (ConfigValue.obj [("test_key", ConfigValue.str "test_value")])
        (ConfigValue.obj [("test_key", ConfigValue.obj [("invalid_value", ConfigValue.num 1)])])).2
      = 400
    ∧ (putConfig (ConfigShape.objShape [("test_key", ConfigShape.strField)])
        (ConfigValue.obj [("test_key", ConfigValue.str "test_value")])
        (ConfigValue.obj [("test_key", ConfigValue.obj [("invalid_value", ConfigValue.num 1)])])).1
      = ConfigValue.obj [("test_key", ConfigValue.str "test_value")] :=
  putConfig_validation_failure _ _ _ (by simp [validates, validatesFields])

/-! ## State export provider theorems -/

theorem buildAll_cons (es : List (String × FSTree)) (p : List String) (c : List Nat)
    (stream : List (List String × List Nat)) :
    buildAll es ((p, c) :: stream) = buildAll (insertEntry es p c) stream := rfl

theorem buildAll_append (es : List (String × FSTree)) (a b : List (List String × List Nat)) :
    buildAll es (a ++ b) = buildAll (buildAll es a) b := by
  simp [buildAll, List.foldl_append]

theorem insertEntry_append_left (a : List (String × FSTree)) (x : String) (p : List String)
    (c : List Nat) (hx : x ∉ a.map Prod.fst) (b : List (String × FSTree)) :
    insertEntry (a ++ b) (x :: p) c = a ++ insertEntry b (x :: p) c := by
  induction a with
  | nil => simp
  | cons hd tl ih =>
    obtain ⟨n, t⟩ := hd
    simp only [List.map_cons, List.mem_cons, not_or] at hx
    have hnx : ¬ n = x := fun h => hx.1 h.symm
    cases p with
    | nil =>
      rw [List.cons_append, insertEntry.eq_def]
      simp only [hnx, if_false, ite_false]
      rw [ih hx.2, List.cons_append]
    | cons y p' =>
      rw [List.cons_append, insertEntry.eq_def]
      simp only [hnx, if_false, ite_false]
      rw [ih hx.2, List.cons_append]

theorem insertEntry_nil_path (x : String) (p : List String) (c : List Nat) :
    insertEntry [] (x :: p) c = [(x, buildTree p c)] := by
  cases p <;> simp [insertEntry]

theorem insertEntry_not_mem (es : List (String × FSTree)) (x : String) (p : List String)
    (c : List Nat) (hx : x ∉ es.map Prod.fst) :
    insertEntry es (x :: p) c = es ++ [(x, buildTree p c)] := by
  have h := insertEntry_append_left es x p c hx []
  rw [List.append_nil] at h
  rw [h, insertEntry_nil_path]

theorem insertEntry_dir_hit (x : String) (d es : List (String × FSTree)) (y : String)
    (p : List String) (c : List Nat) :
    insertEntry ((x, FSTree.dir d) :: es) (x :: y :: p) c =
      (x, FSTree.dir (insertEntry d (y :: p) c)) :: es := by
  simp [insertEntry]

theorem buildTree_cons (y : String) (p : List String) (c : List Nat) :
    buildTree (y :: p) c = FSTree.dir (insertEntry [] (y :: p) c) := by
  rw [insertEntry_nil_path]
  rfl

theorem buildAll_map_cons (n : String) (s : List (List String × List Nat)) :
    ∀ (acc d : List (String × FSTree)), n ∉ acc.map Prod.fst → (∀ q ∈ s, q.1 ≠ []) →
    buildAll (acc ++ [(n, FSTree.dir d)]) (s.map (fun q => (n :: q.1, q.2))) =
      acc ++ [(n, FSTree.dir (buildAll d s))] := by
  induction s with
  | nil => intro acc d _ _; simp [buildAll]
  | cons q s' ih =>
    intro acc d hn hs
    obtain ⟨p, c⟩ := q
    have hp : p ≠ [] := hs (p, c) (by simp)
    cases p with
    | nil => exact absurd rfl hp
    | cons y p' =>
      rw [List.map_cons]
      simp only
      rw [buildAll_cons, insertEntry_append_left acc n _ c hn [(n, FSTree.dir d)],
        insertEntry_dir_hit n d [] y p' c]
      rw [ih acc (insertEntry d (y :: p') c) hn (fun q hq => hs q (by simp [hq]))]
      rw [buildAll_cons]

theorem flatten_paths_ne (es : List (String × FSTree)) :
    ∀ q ∈ flattenEntries es, q.1 ≠ [] := by
  induction es using flattenEntries.induct with
  | case1 => simp [flattenEntries]
  | case2 n c rest ih =>
    intro q hq
    rw [flattenEntries] at hq
    rcases List.mem_cons.mp hq with h | h
    · rw [h]; simp
    · exact ih q h
  | case3 n es₀ rest ih₀ ih =>
    intro q hq
    rw [flattenEntries] at hq
    rcases List.mem_append.mp hq with h | h
    · obtain ⟨q₀, hq₀, rfl⟩ := List.mem_map.mp h
      simp
    · exact ih q h

theorem flatten_ne (es : List (String × FSTree)) (hwf : wfEntries es = true) (hne : es ≠ []) :
    flattenEntries es ≠ [] := by
  induction es using flattenEntries.induct with
  | case1 => exact absurd rfl hne
  | case2 n c rest ih => simp [flattenEntries]
  | case3 n es₀ rest ih₀ ih =>
    rw [wfEntries] at hwf
    simp only [Bool.and_eq_true, Bool.not_eq_true', List.isEmpty_eq_false,
      decide_eq_false_iff_not] at hwf
    rw [flattenEntries]
    intro hcontra
    rcases List.append_eq_nil.mp hcontra with ⟨hmap, _⟩
    exact ih₀ hwf.1.1.2 hwf.1.1.1 (List.map_eq_nil_iff.mp hmap)

theorem buildAll_flatten (es : List (String × FSTree)) (hwf : wfEntries es = true) :
    ∀ acc : List (String × FSTree), (∀ m ∈ es.map Prod.fst, m ∉ acc.map Prod.fst) →
    buildAll acc (flattenEntries es) = acc ++ es := by
  induction es using flattenEntries.induct with
  | case1 => intro acc _; simp [flattenEntries, buildAll]
  | case2 n c rest ih =>
    intro acc hdisj
    rw [wfEntries] at hwf
    simp only [Bool.and_eq_true, Bool.not_eq_true', decide_eq_false_iff_not] at hwf
    have hn : n ∉ acc.map Prod.fst := hdisj n (by simp)
    have hdisj2 : ∀ m ∈ rest.map Prod.fst, m ∉ (acc ++ [(n, buildTree [] c)]).map Prod.fst := by
      intro m hm
      simp only [List.map_append, List.mem_append, not_or, buildTree, List.map_cons,
        List.map_nil, List.mem_cons, List.not_mem_nil, or_false]
      constructor
      · exact hdisj m (by simp [hm])
      · intro hcontra
        exact hwf.1 (hcontra ▸ hm)
    rw [flattenEntries, buildAll_cons, insertEntry_not_mem acc n [] c hn,
      ih hwf.2 (acc ++ [(n, buildTree [] c)]) hdisj2]
    simp [buildTree]
  | case3 n es₀ rest ih₀ ih =>
    intro acc hdisj
    rw [wfEntries] at hwf
    simp only [Bool.and_eq_true, Bool.not_eq_true', decide_eq_false_iff_not,
      List.isEmpty_eq_false] at hwf
    obtain ⟨⟨⟨hne₀, hwf₀⟩, hnotmem⟩, hwfrest⟩ := hwf
    have hn : n ∉ acc.map Prod.fst := hdisj n (by simp)
    rw [flattenEntries, buildAll_append]
    have hfne : flattenEntries es₀ ≠ [] := flatten_ne es₀ hwf₀ hne₀
    obtain ⟨q, s', hq⟩ : ∃ q s', flattenEntries es₀ = q :: s' := by
      cases hflat : flattenEntries es₀ with
      | nil => exact absurd hflat hfne
      | cons q s' => exact ⟨q, s', rfl⟩
    have hinner : buildAll acc ((flattenEntries es₀).map (fun q => (n :: q.1, q.2))) =
        acc ++ [(n, FSTree.dir es₀)] := by
      obtain ⟨p, c⟩ := q
      rw [hq, List.map_cons]
      simp only
      have hp : p ≠ [] := flatten_paths_ne es₀ (p, c) (hq ▸ List.mem_cons_self _ _)
      cases p with
      | nil => exact absurd rfl hp
      | cons y p' =>
        have hs' : ∀ r ∈ s', r.1 ≠ [] := by
          intro r hr
          exact flatten_paths_ne es₀ r (hq ▸ List.mem_cons_of_mem _ hr)
        rw [buildAll_cons, insertEntry_not_mem acc n (y :: p') c hn, buildTree_cons]
        rw [buildAll_map_cons n s' acc (insertEntry [] (y :: p') c) hn hs']
        rw [← buildAll_cons, ← hq, ih₀ hwf₀ [] (by simp)]
        simp
    have hdisj2 : ∀ m ∈ rest.map Prod.fst, m ∉ (acc ++ [(n, FSTree.dir es₀)]).map Prod.fst := by
      intro m hm
      simp only [List.map_append, List.mem_append, not_or, List.map_cons, List.map_nil,
        List.mem_cons, List.not_mem_nil, or_false]
      constructor
      · exact hdisj m (by simp [hm])
      · intro hcontra
        exact hnotmem (hcontra ▸ hm)
    rw [hinner, ih hwfrest (acc ++ [(n, FSTree.dir es₀)]) hdisj2]
    simp


/-- Claim C9: importing the stream exported from a well-formed source state into any
destination reproduces the source exactly: every entry (including nested ones)
is rebuilt and nothing of the pre-existing destination survives. -/
theorem import_export_roundtrip (source dest : List (String × FSTree))
    (hwf : wfEntries source = true) :
    importData dest (exportData source) = source := by
  rw [importData, exportData]
  have h := buildAll_flatten source hwf [] (by simp)
  rw [h]
  simp

/-- Claim C9 witness: the test's layout: source with a top-level file and a nested
subdirectory file, destination with a stale file and a stale subdirectory. -/
theorem import_export_roundtrip_witness :
    importData
        [("test.txt", FSTree.file [9]),
          ("subdir-gets-deleted", FSTree.dir [("test.bin", FSTree.file [1, 2, 3, 4])])]
        (exportData
          [("test.txt", FSTree.file [72, 101, 108, 108, 111]),
            ("subdir", FSTree.dir [("test.bin", FSTree.file [1, 2, 3, 4])])]) =
      [("test.txt", FSTree.file [72, 101, 108, 108, 111]),
        ("subdir", FSTree.dir [("test.bin", FSTree.file [1, 2, 3, 4])])] :=
  import_export_roundtrip _ _ (by simp [wfEntries])

end SemanticWorkbench
